import Mathlib

/-!
Verification of the auxiliary-trace construction of the Miden VM against its
specification, together with a model of the CLI data helpers in
`miden/src/cli/data.rs`.

The stack-overflow auxiliary column builder: the repository file
`processor/src/trace/stack/mod.rs` contains only the wrapper
`build_aux_columns`, which delegates to `AuxTraceHints::build_aux_column`
(declared in `crate::stack`, whose source is not part of this excerpt).  The
core of the builder is therefore modelled from the specification (sections
4.2, 4.3 and 7) and the wrapper is translated from the source.

The field: the specification works with a base field `Felt` (payloads) and an
extension field `ExtElt` (challenges and column values); the base field embeds
into the extension and the running product happens entirely in the extension.
The model uses one field type `F` for both, standing for the image of all data
inside the extension field.
-/

namespace MidenVM

/-- Modelled from the spec (section 3): a hint entry is tagged `insert` or
`remove`. -/
inductive HintKind where
  | insert : HintKind
  | remove : HintKind
deriving DecidableEq, Repr

/-- Modelled from the spec (section 3): a hint entry is
`(cycle: row index, kind, payload)`, where for the stack-overflow table the
payload is `(address, value)` (section 4.3). -/
structure HintEntry (F : Type) where
  cycle : Nat
  kind : HintKind
  address : F
  value : F
deriving DecidableEq, Repr

/-- Modelled from the spec (section 7): the structured error values of the
builder. -/
inductive BuildError where
  | degenerateChallenge : BuildError
  | malformedHintLog : BuildError
  | dimensionMismatch : BuildError
deriving DecidableEq, Repr

/-- The main trace matrix: a row-per-cycle table of base-field values.  Only
its row count is consumed by the stack-overflow builder. -/
def Matrix (F : Type) : Type := List (List F)

/-- Number of rows of a main trace matrix. -/
def Matrix.numRows {F : Type} (m : Matrix F) : Nat := m.length

variable {F : Type} [Field F] [DecidableEq F]

/-- Modelled from the spec (sections 4.2, 4.3): `combine` maps the challenge
triple `(c0, c1, c2)` and the payload `(address, value)` to
`c0 + c1*address + c2*value`. -/
def combine (c0 c1 c2 a v : F) : F := c0 + c1 * a + c2 * v

/-- Modelled from the spec (section 4.2): the factor contributed by one hint:
`combine` of its payload on `insert`, the multiplicative inverse of that on
`remove`. -/
def factorOf (c0 c1 c2 : F) (h : HintEntry F) : F :=
  match h.kind with
  | HintKind.insert => combine c0 c1 c2 h.address h.value
  | HintKind.remove => (combine c0 c1 c2 h.address h.value)⁻¹

/-- The hint carried by row `r`, if any: the first entry of the log whose
cycle is `r` (by section 3 the stack-overflow log has at most one hint per
cycle). -/
def hintAt (hints : List (HintEntry F)) (r : Nat) : Option (HintEntry F) :=
  hints.find? (fun h => h.cycle == r)

/-- Modelled from the spec (section 4.2): `factor(r)` is the factor of the
hint carried by row `r`, and `1` when row `r` carries no hint. -/
def factor (c0 c1 c2 : F) (hints : List (HintEntry F)) (r : Nat) : F :=
  match hintAt hints r with
  | some h => factorOf c0 c1 c2 h
  | none => 1

/-- Modelled from the spec (section 4.2): the running product
`col[0] = 1`, `col[r] = col[r-1] * factor(r)`. -/
def p1 (c0 c1 c2 : F) (hints : List (HintEntry F)) : Nat → F
  | 0 => 1
  | r + 1 => p1 c0 c1 c2 hints r * factor c0 c1 c2 hints (r + 1)

/-- The length-`T` auxiliary column of the running product. -/
def auxColumn (c0 c1 c2 : F) (hints : List (HintEntry F)) (T : Nat) : List F :=
  (List.range T).map (p1 c0 c1 c2 hints)

/-- Modelled from the spec (section 7, `DegenerateChallenge`): whether
`combine` evaluates to the additive identity on some payload of the log. -/
def anyDegenerate (c0 c1 c2 : F) (hints : List (HintEntry F)) : Bool :=
  hints.any (fun h => combine c0 c1 c2 h.address h.value == 0)

/-- Cycles of the log are strictly increasing (section 3: hints are ordered
by cycle with at most one hint per cycle for the stack-overflow table). -/
def cyclesIncreasing : List (HintEntry F) → Bool
  | [] => true
  | [_] => true
  | a :: b :: rest => decide (a.cycle < b.cycle) && cyclesIncreasing (b :: rest)

/-- Modelled from the spec (section 7, `MalformedHintLog`): every hint must
reference an in-range row and rows must be in cycle order.  A hint at cycle
`r` contributes the factor between rows `r-1` and `r`; row `0` is pinned to
the identity and rows stop at `T-1`, so in-range means `1 ≤ cycle < T`. -/
def wellFormedLog (hints : List (HintEntry F)) (T : Nat) : Bool :=
  hints.all (fun h => decide (1 ≤ h.cycle) && decide (h.cycle < T)) &&
    cyclesIncreasing hints

/-- Modelled from the spec (sections 4.2, 4.3, 7): the stack-overflow
builder core `AuxTraceHints::build_aux_column`.  The challenge vector must
have the arity of the combine formula (else `DimensionMismatch`); `combine`
must not vanish on any payload of the log (else `DegenerateChallenge`,
checked explicitly, never assumed); the log must be well formed (else
`MalformedHintLog`); on success the column is the running product. -/
def build_aux_column (trace_len : Nat) (hints : List (HintEntry F))
    (rand_elements : List F) : Except BuildError (List F) :=
  match rand_elements with
  | [c0, c1, c2] =>
    if anyDegenerate c0 c1 c2 hints then
      Except.error BuildError.degenerateChallenge
    else if wellFormedLog hints trace_len then
      Except.ok (auxColumn c0 c1 c2 hints trace_len)
    else
      Except.error BuildError.malformedHintLog
  | _ => Except.error BuildError.dimensionMismatch

/-- Translated from `processor/src/trace/stack/mod.rs`: builds and returns
the stack auxiliary trace columns, i.e. the single column `p1` describing
the states of the stack overflow table, wrapped in a one-element vector. -/
def build_aux_columns (main_trace : Matrix F) (hints : List (HintEntry F))
    (rand_elements : List F) : Except BuildError (List (List F)) :=
  (build_aux_column main_trace.numRows hints rand_elements).map (fun p1 => [p1])

/-- Decidable equality of `Except` values, used to evaluate the model on
concrete inputs. -/
instance instDecEqExcept {e a : Type} [DecidableEq e] [DecidableEq a] :
    DecidableEq (Except e a)
  | Except.ok x, Except.ok y =>
    if h : x = y then isTrue (by rw [h]) else isFalse (fun c => by cases c; exact h rfl)
  | Except.ok _, Except.error _ => isFalse (fun c => by cases c)
  | Except.error _, Except.ok _ => isFalse (fun c => by cases c)
  | Except.error x, Except.error y =>
    if h : x = y then isTrue (by rw [h]) else isFalse (fun c => by cases c; exact h rfl)

/-- Success characterisation of the builder core: the challenge triple must
be non-degenerate on the log, the log well formed, and the output is the
running-product column. -/
lemma build_aux_column_ok_iff (T : Nat) (hints : List (HintEntry F))
    (c0 c1 c2 : F) (col : List F) :
    build_aux_column T hints [c0, c1, c2] = Except.ok col ↔
      anyDegenerate c0 c1 c2 hints = false ∧ wellFormedLog hints T = true ∧
        col = auxColumn c0 c1 c2 hints T := by
  unfold build_aux_column
  by_cases hd : anyDegenerate c0 c1 c2 hints = true
  · simp [hd]
  · by_cases hw : wellFormedLog hints T = true
    · simp [hd, hw, eq_comm]
    · simp [hd, hw]

/-- Success characterisation of the wrapper `build_aux_columns`. -/
lemma build_aux_columns_ok_iff (mt : Matrix F) (hints : List (HintEntry F))
    (c0 c1 c2 : F) (cols : List (List F)) :
    build_aux_columns mt hints [c0, c1, c2] = Except.ok cols ↔
      anyDegenerate c0 c1 c2 hints = false ∧ wellFormedLog hints mt.numRows = true ∧
        cols = [auxColumn c0 c1 c2 hints mt.numRows] := by
  constructor
  · intro h
    unfold build_aux_columns at h
    cases hb : build_aux_column mt.numRows hints [c0, c1, c2] with
    | error e => rw [hb] at h; simp [Except.map] at h
    | ok col =>
      rw [hb] at h
      simp only [Except.map, Except.ok.injEq] at h
      obtain ⟨hd, hw, hcol⟩ := (build_aux_column_ok_iff _ _ _ _ _ _).mp hb
      exact ⟨hd, hw, by rw [← h, hcol]⟩
  · rintro ⟨hd, hw, rfl⟩
    unfold build_aux_columns
    rw [(build_aux_column_ok_iff mt.numRows hints c0 c1 c2 _).mpr ⟨hd, hw, rfl⟩]
    rfl

/-- A successful build forces the challenge vector to have arity three. -/
lemma build_aux_columns_ok_rand (mt : Matrix F) (hints : List (HintEntry F))
    (rand : List F) (cols : List (List F))
    (hb : build_aux_columns mt hints rand = Except.ok cols) :
    ∃ c0 c1 c2, rand = [c0, c1, c2] := by
  rcases rand with _ | ⟨c0, _ | ⟨c1, _ | ⟨c2, _ | ⟨c3, rest⟩⟩⟩⟩
  · simp [build_aux_columns, build_aux_column, Except.map] at hb
  · simp [build_aux_columns, build_aux_column, Except.map] at hb
  · simp [build_aux_columns, build_aux_column, Except.map] at hb
  · exact ⟨c0, c1, c2, rfl⟩
  · simp [build_aux_columns, build_aux_column, Except.map] at hb

/-- The auxiliary column has one entry per trace row. -/
lemma auxColumn_length (c0 c1 c2 : F) (hints : List (HintEntry F)) (T : Nat) :
    (auxColumn c0 c1 c2 hints T).length = T := by
  simp [auxColumn]

/-- Reading the auxiliary column at an in-range row yields the running
product at that row. -/
lemma auxColumn_getD (c0 c1 c2 : F) (hints : List (HintEntry F)) {r T : Nat}
    (hr : r < T) :
    (auxColumn c0 c1 c2 hints T).getD r 0 = p1 c0 c1 c2 hints r := by
  simp [auxColumn, List.getD, List.getElem?_map, List.getElem?_range, hr]

/-- With an empty hint log every row factor is `1`, so the running product
is constantly `1`. -/
lemma p1_nil (c0 c1 c2 : F) (r : Nat) : p1 c0 c1 c2 ([] : List (HintEntry F)) r = 1 := by
  induction r with
  | zero => rfl
  | succ n ih => simp [p1, factor, hintAt, ih]

/-- The auxiliary column of the empty hint log is the constant identity
column. -/
lemma auxColumn_nil (c0 c1 c2 : F) (T : Nat) :
    auxColumn c0 c1 c2 ([] : List (HintEntry F)) T = List.replicate T 1 := by
  unfold auxColumn
  refine List.eq_replicate_iff.mpr ⟨by simp, ?_⟩
  intro b hb
  rcases List.mem_map.mp hb with ⟨r, _, rfl⟩
  exact p1_nil c0 c1 c2 r

/-- C6: for every trace length `T` and every challenge vector `(c0,c1,c2)`,
if the hint log is empty then the auxiliary column produced is the constant
sequence of the multiplicative identity of length `T`. -/
theorem empty_log_identity_column (mt : Matrix F) (c0 c1 c2 : F) :
    build_aux_columns mt ([] : List (HintEntry F)) [c0, c1, c2] =
      Except.ok [List.replicate mt.numRows 1] := by
  rw [build_aux_columns_ok_iff]
  exact ⟨rfl, rfl, by rw [auxColumn_nil]⟩

/-- C7: the builder is a pure, deterministic function of its three inputs:
two invocations on identical main trace, hint log and challenge vector
return identical output columns. -/
theorem build_aux_columns_deterministic (mt₁ mt₂ : Matrix F)
    (hints₁ hints₂ : List (HintEntry F)) (rand₁ rand₂ : List F)
    (hm : mt₁ = mt₂) (hh : hints₁ = hints₂) (hr : rand₁ = rand₂) :
    build_aux_columns mt₁ hints₁ rand₁ = build_aux_columns mt₂ hints₂ rand₂ := by
  rw [hm, hh, hr]

/-- Witness for C7 at a concrete input. -/
theorem build_aux_columns_deterministic_witness :
    build_aux_columns ([[1]] : Matrix ℚ) [⟨1, HintKind.insert, 2, 5⟩] [1, 1, 1] =
      build_aux_columns ([[1]] : Matrix ℚ) [⟨1, HintKind.insert, 2, 5⟩] [1, 1, 1] :=
  build_aux_columns_deterministic _ _ _ _ _ _ rfl rfl rfl

/-- The running product unfolds one step at a time. -/
lemma p1_succ (c0 c1 c2 : F) (hints : List (HintEntry F)) (r : Nat) :
    p1 c0 c1 c2 hints (r + 1) = p1 c0 c1 c2 hints r * factor c0 c1 c2 hints (r + 1) := rfl

/-- A row without a hint contributes the factor `1`. -/
lemma factor_of_none (c0 c1 c2 : F) {hints : List (HintEntry F)} {r : Nat}
    (h : hintAt hints r = none) : factor c0 c1 c2 hints r = 1 := by
  unfold factor
  rw [h]

/-- A row with a hint contributes the factor of that hint. -/
lemma factor_of_some (c0 c1 c2 : F) {hints : List (HintEntry F)} {r : Nat}
    {e : HintEntry F} (h : hintAt hints r = some e) :
    factor c0 c1 c2 hints r = factorOf c0 c1 c2 e := by
  unfold factor
  rw [h]

/-- Evaluation of the builder on the concrete scenario of the spec
(section 8): `T = 4`, an insert at row 1 and a matching remove at row 3,
both with payload `(7, 3)`, for any challenge triple whose combined value
on that payload is nonzero. -/
lemma concrete_scenario_eval (c0 c1 c2 : F) (hx : combine c0 c1 c2 7 3 ≠ 0) :
    build_aux_columns ([[], [], [], []] : Matrix F)
      [⟨1, HintKind.insert, 7, 3⟩, ⟨3, HintKind.remove, 7, 3⟩] [c0, c1, c2] =
      Except.ok [[1, combine c0 c1 c2 7 3, combine c0 c1 c2 7 3, 1]] := by
  have hbeq : (combine c0 c1 c2 7 3 == 0) = false := beq_eq_false_iff_ne.mpr hx
  rw [build_aux_columns_ok_iff]
  refine ⟨by simp [anyDegenerate, hbeq], rfl, ?_⟩
  have hAt1 : hintAt ([⟨1, HintKind.insert, 7, 3⟩, ⟨3, HintKind.remove, 7, 3⟩] :
      List (HintEntry F)) 1 = some ⟨1, HintKind.insert, 7, 3⟩ := rfl
  have hAt2 : hintAt ([⟨1, HintKind.insert, 7, 3⟩, ⟨3, HintKind.remove, 7, 3⟩] :
      List (HintEntry F)) 2 = none := rfl
  have hAt3 : hintAt ([⟨1, HintKind.insert, 7, 3⟩, ⟨3, HintKind.remove, 7, 3⟩] :
      List (HintEntry F)) 3 = some ⟨3, HintKind.remove, 7, 3⟩ := rfl
  have hF1 : factor c0 c1 c2 [⟨1, HintKind.insert, 7, 3⟩, ⟨3, HintKind.remove, 7, 3⟩] 1 =
      combine c0 c1 c2 7 3 := factor_of_some c0 c1 c2 hAt1
  have hF2 : factor c0 c1 c2 [⟨1, HintKind.insert, 7, 3⟩, ⟨3, HintKind.remove, 7, 3⟩] 2 =
      1 := factor_of_none c0 c1 c2 hAt2
  have hF3 : factor c0 c1 c2 [⟨1, HintKind.insert, 7, 3⟩, ⟨3, HintKind.remove, 7, 3⟩] 3 =
      (combine c0 c1 c2 7 3)⁻¹ := factor_of_some c0 c1 c2 hAt3
  unfold auxColumn Matrix.numRows
  rw [show ([[], [], [], []] : Matrix F).length = 4 from rfl,
    show List.range 4 = [0, 1, 2, 3] from rfl]
  simp only [List.map_cons, List.map_nil, p1, hF1, hF2, hF3, one_mul, mul_one]
  rw [mul_inv_cancel₀ hx]

/-- A degenerate challenge triple makes the builder fail with the structured
`DegenerateChallenge` error. -/
lemma build_aux_columns_degenerate (mt : Matrix F) (hints : List (HintEntry F))
    (c0 c1 c2 : F) (hd : anyDegenerate c0 c1 c2 hints = true) :
    build_aux_columns mt hints [c0, c1, c2] =
      Except.error BuildError.degenerateChallenge := by
  simp [build_aux_columns, build_aux_column, hd, Except.map]

/-- C2 counterexample: over the rationals, the nonzero challenge triple
`(1, 1, -8/3)` makes `combine` vanish on the payload `(7, 3)`, so on the
concrete scenario the builder fails with `DegenerateChallenge` instead of
producing the column `[1, c0+7c1+3c2, c0+7c1+3c2, 1]` — all challenge
entries being nonzero does not suffice. -/
theorem concrete_scenario_nonzero_insufficient :
    ((1 : ℚ) ≠ 0 ∧ (1 : ℚ) ≠ 0 ∧ (-8/3 : ℚ) ≠ 0) ∧
    build_aux_columns ([[], [], [], []] : Matrix ℚ)
        [⟨1, HintKind.insert, 7, 3⟩, ⟨3, HintKind.remove, 7, 3⟩] [1, 1, -8/3] =
      Except.error BuildError.degenerateChallenge ∧
    build_aux_columns ([[], [], [], []] : Matrix ℚ)
        [⟨1, HintKind.insert, 7, 3⟩, ⟨3, HintKind.remove, 7, 3⟩] [1, 1, -8/3] ≠
      Except.ok [[1, 1 + 7 * 1 + 3 * (-8/3), 1 + 7 * 1 + 3 * (-8/3), 1]] := by
  have hdeg : anyDegenerate (1 : ℚ) 1 (-8/3)
      [⟨1, HintKind.insert, 7, 3⟩, ⟨3, HintKind.remove, 7, 3⟩] = true := by
    unfold anyDegenerate
    rw [List.any_eq_true]
    refine ⟨⟨1, HintKind.insert, 7, 3⟩, by simp, beq_iff_eq.mpr ?_⟩
    unfold combine
    norm_num
  have herr := build_aux_columns_degenerate ([[], [], [], []] : Matrix ℚ) _ 1 1 (-8/3) hdeg
  refine ⟨⟨by norm_num, by norm_num, by norm_num⟩, herr, ?_⟩
  rw [herr]
  intro hcontra
  exact Except.noConfusion hcontra

/-- C2 (amended): on the concrete scenario `T = 4`,
hints `[insert@row1(addr=7,val=3), remove@row3(addr=7,val=3)]`, for any
challenges `(c0,c1,c2)` with `c0 + 7*c1 + 3*c2 ≠ 0` the auxiliary column is
exactly `[1, c0+7c1+3c2, c0+7c1+3c2, 1]`. -/
theorem concrete_scenario_column (c0 c1 c2 : F) (hx : c0 + 7 * c1 + 3 * c2 ≠ 0) :
    build_aux_columns ([[], [], [], []] : Matrix F)
      [⟨1, HintKind.insert, 7, 3⟩, ⟨3, HintKind.remove, 7, 3⟩] [c0, c1, c2] =
      Except.ok [[1, c0 + 7 * c1 + 3 * c2, c0 + 7 * c1 + 3 * c2, 1]] := by
  have hc : combine c0 c1 c2 7 3 = c0 + 7 * c1 + 3 * c2 := by
    unfold combine
    ring
  rw [concrete_scenario_eval c0 c1 c2 (by rw [hc]; exact hx), hc]

/-- Witness for C2 (amended) at the challenge triple `(1, 1, 2)` over the
rationals. -/
theorem concrete_scenario_column_witness :
    ((1 : ℚ) + 7 * 1 + 3 * 2 ≠ 0) ∧
    build_aux_columns ([[], [], [], []] : Matrix ℚ)
        [⟨1, HintKind.insert, 7, 3⟩, ⟨3, HintKind.remove, 7, 3⟩] [1, 1, 2] =
      Except.ok [[1, 1 + 7 * 1 + 3 * 2, 1 + 7 * 1 + 3 * 2, 1]] :=
  ⟨by norm_num, concrete_scenario_column 1 1 2 (by norm_num)⟩

/-- The factor of an insert hint is the combined payload. -/
lemma factorOf_insert (c0 c1 c2 : F) (e : HintEntry F)
    (h : e.kind = HintKind.insert) :
    factorOf c0 c1 c2 e = combine c0 c1 c2 e.address e.value := by
  unfold factorOf
  rw [h]

/-- The factor of a remove hint is the inverse of the combined payload. -/
lemma factorOf_remove (c0 c1 c2 : F) (e : HintEntry F)
    (h : e.kind = HintKind.remove) :
    factorOf c0 c1 c2 e = (combine c0 c1 c2 e.address e.value)⁻¹ := by
  unfold factorOf
  rw [h]

/-- C1: for every trace, hint log and challenge triple on which the builder
produces the column `p1`, the column satisfies the running-product
recurrence at every row `1 ≤ r < T`: multiplied by the combined payload on
an insert hint at row `r`, by its inverse on a remove hint, and unchanged
when row `r` carries no hint. -/
theorem running_product_recurrence (mt : Matrix F) (hints : List (HintEntry F))
    (c0 c1 c2 : F) (col : List F)
    (hb : build_aux_columns mt hints [c0, c1, c2] = Except.ok [col])
    (r : Nat) (hr : 1 ≤ r) (hT : r < mt.numRows) :
    (∀ e : HintEntry F, hintAt hints r = some e → e.kind = HintKind.insert →
        col.getD r 0 = col.getD (r - 1) 0 * combine c0 c1 c2 e.address e.value) ∧
    (∀ e : HintEntry F, hintAt hints r = some e → e.kind = HintKind.remove →
        col.getD r 0 = col.getD (r - 1) 0 * (combine c0 c1 c2 e.address e.value)⁻¹) ∧
    (hintAt hints r = none → col.getD r 0 = col.getD (r - 1) 0) := by
  obtain ⟨hd, hw, hcols⟩ := (build_aux_columns_ok_iff mt hints c0 c1 c2 [col]).mp hb
  have hcol : col = auxColumn c0 c1 c2 hints mt.numRows := by
    simpa using hcols
  subst hcol
  obtain ⟨r', rfl⟩ : ∃ r', r = r' + 1 := ⟨r - 1, (Nat.succ_pred_eq_of_pos hr).symm⟩
  have hT' : r' < mt.numRows := Nat.lt_of_succ_lt hT
  have hgr := auxColumn_getD c0 c1 c2 hints hT
  have hgr' := auxColumn_getD c0 c1 c2 hints hT'
  have hsub : r' + 1 - 1 = r' := Nat.succ_sub_one r'
  refine ⟨?_, ?_, ?_⟩
  · intro e hAt hk
    rw [hgr, hsub, hgr', p1_succ, factor_of_some c0 c1 c2 hAt, factorOf_insert c0 c1 c2 e hk]
  · intro e hAt hk
    rw [hgr, hsub, hgr', p1_succ, factor_of_some c0 c1 c2 hAt, factorOf_remove c0 c1 c2 e hk]
  · intro hAt
    rw [hgr, hsub, hgr', p1_succ, factor_of_none c0 c1 c2 hAt, mul_one]

/-- Witness for C1 on the concrete scenario over the rationals, at the
insert row `r = 1`. -/
theorem running_product_recurrence_witness :
    ((1 : Nat) ≤ 1 ∧ 1 < Matrix.numRows ([[], [], [], []] : Matrix ℚ)) ∧
    ((∀ e : HintEntry ℚ,
        hintAt [⟨1, HintKind.insert, 7, 3⟩, ⟨3, HintKind.remove, 7, 3⟩] 1 = some e →
        e.kind = HintKind.insert →
        ([1, combine (1 : ℚ) 1 2 7 3, combine (1 : ℚ) 1 2 7 3, 1].getD 1 0 =
          [1, combine (1 : ℚ) 1 2 7 3, combine (1 : ℚ) 1 2 7 3, 1].getD 0 0 *
            combine 1 1 2 e.address e.value)) ∧
     (∀ e : HintEntry ℚ,
        hintAt [⟨1, HintKind.insert, 7, 3⟩, ⟨3, HintKind.remove, 7, 3⟩] 1 = some e →
        e.kind = HintKind.remove →
        ([1, combine (1 : ℚ) 1 2 7 3, combine (1 : ℚ) 1 2 7 3, 1].getD 1 0 =
          [1, combine (1 : ℚ) 1 2 7 3, combine (1 : ℚ) 1 2 7 3, 1].getD 0 0 *
            (combine 1 1 2 e.address e.value)⁻¹)) ∧
     (hintAt ([⟨1, HintKind.insert, 7, 3⟩, ⟨3, HintKind.remove, 7, 3⟩] :
          List (HintEntry ℚ)) 1 = none →
        [1, combine (1 : ℚ) 1 2 7 3, combine (1 : ℚ) 1 2 7 3, 1].getD 1 0 =
          [1, combine (1 : ℚ) 1 2 7 3, combine (1 : ℚ) 1 2 7 3, 1].getD 0 0)) :=
  ⟨⟨le_refl 1, by decide⟩,
    running_product_recurrence [[], [], [], []]
      [⟨1, HintKind.insert, 7, 3⟩, ⟨3, HintKind.remove, 7, 3⟩] 1 1 2
      [1, combine (1 : ℚ) 1 2 7 3, combine (1 : ℚ) 1 2 7 3, 1]
      (concrete_scenario_eval 1 1 2 (by unfold combine; norm_num))
      1 (le_refl 1) (by decide)⟩

/-- C4: on every input on which the builder succeeds, every column it
produces (there being one, `p1`) carries the multiplicative identity at
row 0. -/
theorem aux_column_row_zero_identity (mt : Matrix F) (hints : List (HintEntry F))
    (rand : List F) (cols : List (List F))
    (hb : build_aux_columns mt hints rand = Except.ok cols)
    (col : List F) (hc : col ∈ cols) (hlen : 0 < col.length) :
    col.getD 0 0 = 1 := by
  obtain ⟨c0, c1, c2, rfl⟩ := build_aux_columns_ok_rand mt hints rand cols hb
  obtain ⟨hd, hw, rfl⟩ := (build_aux_columns_ok_iff mt hints c0 c1 c2 cols).mp hb
  have hcol : col = auxColumn c0 c1 c2 hints mt.numRows := by
    simpa using hc
  subst hcol
  have hT : 0 < mt.numRows := by
    rw [auxColumn_length] at hlen
    exact hlen
  rw [auxColumn_getD c0 c1 c2 hints hT]
  rfl

/-- Witness for C4 on the empty-log build of a one-row trace over the
rationals. -/
theorem aux_column_row_zero_identity_witness :
    (List.replicate 1 (1 : ℚ)) ∈ [List.replicate 1 (1 : ℚ)] ∧
    0 < (List.replicate 1 (1 : ℚ)).length ∧
    (List.replicate 1 (1 : ℚ)).getD 0 0 = 1 :=
  ⟨List.mem_singleton.mpr rfl, by decide,
    aux_column_row_zero_identity [[]] [] [0, 0, 0] [List.replicate 1 1]
      ((build_aux_columns_ok_iff [[]] [] 0 0 0 [List.replicate 1 1]).mpr
        ⟨rfl, rfl, by rw [auxColumn_nil]; rfl⟩)
      (List.replicate 1 1) (List.mem_singleton.mpr rfl) (by decide)⟩

/-- C5: the builder explicitly checks whether `combine` vanishes on some
payload of the hint log and fails with the structured `DegenerateChallenge`
error in that case; conversely, whenever it produces columns, `combine` is
nonzero on every payload of the log, so no inverse of zero is ever taken
silently. -/
theorem degenerate_challenge_checked (mt : Matrix F) (hints : List (HintEntry F))
    (c0 c1 c2 : F) :
    ((∃ e ∈ hints, combine c0 c1 c2 e.address e.value = 0) →
      build_aux_columns mt hints [c0, c1, c2] =
        Except.error BuildError.degenerateChallenge) ∧
    (∀ cols, build_aux_columns mt hints [c0, c1, c2] = Except.ok cols →
      ∀ e ∈ hints, combine c0 c1 c2 e.address e.value ≠ 0) := by
  constructor
  · rintro ⟨e, he, hz⟩
    apply build_aux_columns_degenerate
    unfold anyDegenerate
    rw [List.any_eq_true]
    exact ⟨e, he, beq_iff_eq.mpr hz⟩
  · intro cols hb e he hz
    obtain ⟨hd, -, -⟩ := (build_aux_columns_ok_iff mt hints c0 c1 c2 cols).mp hb
    unfold anyDegenerate at hd
    rw [List.any_eq_false] at hd
    exact hd e he (beq_iff_eq.mpr hz)

/-- Witness for C5: the challenge triple `(-2, 1, 1)` is degenerate on the
payload `(1, 1)` and the builder fails with the structured error. -/
theorem degenerate_challenge_checked_witness :
    build_aux_columns ([[]] : Matrix ℚ) [⟨1, HintKind.insert, 1, 1⟩] [-2, 1, 1] =
      Except.error BuildError.degenerateChallenge :=
  (degenerate_challenge_checked [[]] [⟨1, HintKind.insert, 1, 1⟩] (-2) 1 1).1
    ⟨⟨1, HintKind.insert, 1, 1⟩, List.mem_singleton.mpr rfl, by unfold combine; norm_num⟩

/-- Payloads of the insert hints of a log, in log order. -/
def insertPayloads (hints : List (HintEntry F)) : List (F × F) :=
  (hints.filter (fun h => h.kind == HintKind.insert)).map (fun h => (h.address, h.value))

/-- Payloads of the remove hints of a log, in log order. -/
def removePayloads (hints : List (HintEntry F)) : List (F × F) :=
  (hints.filter (fun h => h.kind == HintKind.remove)).map (fun h => (h.address, h.value))

/-- A hint log is balanced when its inserts are matched one-to-one with its
removes by identical payload, i.e. the multiset of inserted payloads equals
the multiset of removed payloads.  The position of the matched remove does
not affect any product of factors, so the matching is captured at the level
of payload multisets. -/
def balancedLog (hints : List (HintEntry F)) : Prop :=
  (insertPayloads hints : Multiset (F × F)) = (removePayloads hints : Multiset (F × F))

/-- Strictly increasing cycles give pairwise increasing cycles. -/
lemma cyclesIncreasing_pairwise :
    ∀ l : List (HintEntry F), cyclesIncreasing l = true →
      List.Pairwise (fun a b : HintEntry F => a.cycle < b.cycle) l := by
  intro l
  induction l with
  | nil => intro _; exact List.Pairwise.nil
  | cons a t ih =>
    intro h
    cases t with
    | nil => exact List.pairwise_singleton _ a
    | cons b rest =>
      unfold cyclesIncreasing at h
      rw [Bool.and_eq_true, decide_eq_true_eq] at h
      obtain ⟨hab, ht⟩ := h
      have hp := ih ht
      refine List.pairwise_cons.mpr ⟨?_, hp⟩
      intro x hx
      rcases List.mem_cons.mp hx with hxb | hxrest
      · rw [hxb]; exact hab
      · exact lt_trans hab ((List.pairwise_cons.mp hp).1 x hxrest)

/-- One step of the filtered-product decomposition: extending the cycle
bound from `n` to `n + 1` multiplies in exactly the factor of row `n + 1`. -/
lemma prod_filter_succ (c0 c1 c2 : F) (n : Nat) :
    ∀ hints : List (HintEntry F),
      List.Pairwise (fun a b : HintEntry F => a.cycle < b.cycle) hints →
      ((hints.filter (fun h => decide (h.cycle ≤ n + 1))).map (factorOf c0 c1 c2)).prod =
        ((hints.filter (fun h => decide (h.cycle ≤ n))).map (factorOf c0 c1 c2)).prod *
          factor c0 c1 c2 hints (n + 1) := by
  intro hints
  induction hints with
  | nil =>
    intro _
    have hnone : hintAt ([] : List (HintEntry F)) (n + 1) = none := rfl
    simp [factor_of_none c0 c1 c2 hnone]
  | cons a t ih =>
    intro hpw
    obtain ⟨ha, hpt⟩ := List.pairwise_cons.mp hpw
    by_cases hc : a.cycle = n + 1
    · have hfind : hintAt (a :: t) (n + 1) = some a := by
        unfold hintAt
        exact List.find?_cons_of_pos _ (beq_iff_eq.mpr hc)
      have htail : ∀ x ∈ t, n + 1 < x.cycle := fun x hx => hc ▸ ha x hx
      have hf1 : t.filter (fun h => decide (h.cycle ≤ n + 1)) = [] := by
        rw [List.filter_eq_nil_iff]
        intro x hx
        have := htail x hx
        simp only [decide_eq_true_eq]
        omega
      have hf0 : t.filter (fun h => decide (h.cycle ≤ n)) = [] := by
        rw [List.filter_eq_nil_iff]
        intro x hx
        have := htail x hx
        simp only [decide_eq_true_eq]
        omega
      rw [List.filter_cons_of_pos (by simp only [decide_eq_true_eq]; omega),
        List.filter_cons_of_neg (by simp only [decide_eq_true_eq]; omega),
        hf1, hf0, factor_of_some c0 c1 c2 hfind]
      simp
    · have hfind : hintAt (a :: t) (n + 1) = hintAt t (n + 1) := by
        unfold hintAt
        exact List.find?_cons_of_neg _ (by
          simp only [beq_iff_eq]
          exact hc)
      have hfac : factor c0 c1 c2 (a :: t) (n + 1) = factor c0 c1 c2 t (n + 1) := by
        unfold factor
        rw [hfind]
      by_cases hc2 : a.cycle ≤ n
      · rw [List.filter_cons_of_pos (by simp only [decide_eq_true_eq]; omega),
          List.filter_cons_of_pos (by simp only [decide_eq_true_eq]; omega),
          List.map_cons, List.map_cons, List.prod_cons, List.prod_cons,
          ih hpt, hfac, mul_assoc]
      · have hgt : n + 1 < a.cycle := by omega
        rw [List.filter_cons_of_neg (by simp only [decide_eq_true_eq]; omega),
          List.filter_cons_of_neg (by simp only [decide_eq_true_eq]; omega),
          ih hpt, hfac]

/-- The running product at row `n` is the product of the factors of all
hints with cycle at most `n`, provided cycles are positive and pairwise
increasing. -/
lemma p1_eq_prod_filter (c0 c1 c2 : F) (hints : List (HintEntry F))
    (hpos : ∀ h ∈ hints, 1 ≤ h.cycle)
    (hpw : List.Pairwise (fun a b : HintEntry F => a.cycle < b.cycle) hints) :
    ∀ n : Nat, p1 c0 c1 c2 hints n =
      ((hints.filter (fun h => decide (h.cycle ≤ n))).map (factorOf c0 c1 c2)).prod := by
  intro n
  induction n with
  | zero =>
    have hnil : hints.filter (fun h => decide (h.cycle ≤ 0)) = [] := by
      rw [List.filter_eq_nil_iff]
      intro a ha
      have := hpos a ha
      simp only [decide_eq_true_eq]
      omega
    rw [hnil]
    simp [p1]
  | succ n ih =>
    rw [p1_succ, ih, ← prod_filter_succ c0 c1 c2 n hints hpw]

/-- Product of pointwise inverses is the inverse of the product. -/
lemma prod_map_inv (l : List F) : (l.map (fun x => x⁻¹)).prod = l.prod⁻¹ := by
  induction l with
  | nil => simp
  | cons a t ih => simp [ih, mul_inv, mul_comm]

/-- The product of all hint factors splits as the product of combined insert
payloads times the inverse of the product of combined remove payloads. -/
lemma insertPayloads_cons (a : HintEntry F) (t : List (HintEntry F)) :
    insertPayloads (a :: t) =
      if a.kind = HintKind.insert then (a.address, a.value) :: insertPayloads t
      else insertPayloads t := by
  unfold insertPayloads
  by_cases hk : a.kind = HintKind.insert
  · rw [List.filter_cons_of_pos (by rw [hk]; rfl), List.map_cons, if_pos hk]
  · rw [List.filter_cons_of_neg (by simp [hk]), if_neg hk]

lemma removePayloads_cons (a : HintEntry F) (t : List (HintEntry F)) :
    removePayloads (a :: t) =
      if a.kind = HintKind.remove then (a.address, a.value) :: removePayloads t
      else removePayloads t := by
  unfold removePayloads
  by_cases hk : a.kind = HintKind.remove
  · rw [List.filter_cons_of_pos (by rw [hk]; rfl), List.map_cons, if_pos hk]
  · rw [List.filter_cons_of_neg (by simp [hk]), if_neg hk]

lemma prod_factorOf_split (c0 c1 c2 : F) :
    ∀ hints : List (HintEntry F),
      ((hints.map (factorOf c0 c1 c2)).prod) =
        ((insertPayloads hints).map (fun p => combine c0 c1 c2 p.1 p.2)).prod *
          (((removePayloads hints).map (fun p => combine c0 c1 c2 p.1 p.2)).prod)⁻¹ := by
  intro hints
  induction hints with
  | nil => simp [insertPayloads, removePayloads]
  | cons a t ih =>
    rw [List.map_cons, List.prod_cons, ih, insertPayloads_cons, removePayloads_cons]
    by_cases hk : a.kind = HintKind.insert
    · rw [factorOf_insert c0 c1 c2 a hk, if_pos hk, if_neg (by simp [hk]),
        List.map_cons, List.prod_cons, mul_assoc]
    · have hk2 : a.kind = HintKind.remove := by
        cases hc : a.kind
        · exact absurd hc hk
        · rfl
      rw [factorOf_remove c0 c1 c2 a hk2, if_neg hk, if_pos hk2,
        List.map_cons, List.prod_cons, mul_inv]
      ring

/-- In a balanced log the product of combined insert payloads equals the
product of combined remove payloads. -/
lemma balanced_prod_eq (hints : List (HintEntry F)) (f : F × F → F)
    (hbal : balancedLog hints) :
    ((insertPayloads hints).map f).prod = ((removePayloads hints).map f).prod := by
  unfold balancedLog at hbal
  have hperm : (insertPayloads hints).Perm (removePayloads hints) :=
    Multiset.coe_eq_coe.mp hbal
  exact (hperm.map f).prod_eq

/-- If the degeneracy check passed, `combine` is nonzero on every payload
of the log. -/
lemma combine_ne_zero_of_check (c0 c1 c2 : F) {hints : List (HintEntry F)}
    (hd : anyDegenerate c0 c1 c2 hints = false) {e : HintEntry F} (he : e ∈ hints) :
    combine c0 c1 c2 e.address e.value ≠ 0 := by
  unfold anyDegenerate at hd
  rw [List.any_eq_false] at hd
  exact fun hz => hd e he (beq_iff_eq.mpr hz)

/-- With the degeneracy check passed, the product of combined remove
payloads is nonzero. -/
lemma remove_prod_ne_zero (c0 c1 c2 : F) {hints : List (HintEntry F)}
    (hd : anyDegenerate c0 c1 c2 hints = false) :
    ((removePayloads hints).map (fun p => combine c0 c1 c2 p.1 p.2)).prod ≠ 0 := by
  apply List.prod_ne_zero
  intro h0
  rcases List.mem_map.mp h0 with ⟨p, hp, hz⟩
  rcases List.mem_map.mp hp with ⟨e, hef, rfl⟩
  have he : e ∈ hints := List.mem_of_mem_filter hef
  exact combine_ne_zero_of_check c0 c1 c2 hd he hz

/-- C3: whenever the builder produces the column and the hint log is
balanced (every insert matched by exactly one remove with identical
payload), the terminal (last-row) value of the column is the multiplicative
identity. -/
theorem balanced_log_terminal_identity (mt : Matrix F) (hints : List (HintEntry F))
    (c0 c1 c2 : F) (col : List F)
    (hb : build_aux_columns mt hints [c0, c1, c2] = Except.ok [col])
    (hbal : balancedLog hints) (hT : 0 < mt.numRows) :
    col.getD (mt.numRows - 1) 0 = 1 := by
  obtain ⟨hd, hw, hcols⟩ := (build_aux_columns_ok_iff mt hints c0 c1 c2 [col]).mp hb
  have hcol : col = auxColumn c0 c1 c2 hints mt.numRows := by
    simpa using hcols
  subst hcol
  unfold wellFormedLog at hw
  rw [Bool.and_eq_true] at hw
  obtain ⟨hrange, hinc⟩ := hw
  rw [List.all_eq_true] at hrange
  have hpos : ∀ h ∈ hints, 1 ≤ h.cycle := by
    intro h hh
    have := hrange h hh
    rw [Bool.and_eq_true, decide_eq_true_eq, decide_eq_true_eq] at this
    exact this.1
  have hlt : ∀ h ∈ hints, h.cycle < mt.numRows := by
    intro h hh
    have := hrange h hh
    rw [Bool.and_eq_true, decide_eq_true_eq, decide_eq_true_eq] at this
    exact this.2
  have hpw := cyclesIncreasing_pairwise hints hinc
  rw [auxColumn_getD c0 c1 c2 hints (Nat.sub_lt hT Nat.one_pos),
    p1_eq_prod_filter c0 c1 c2 hints hpos hpw (mt.numRows - 1)]
  have hfull : hints.filter (fun h => decide (h.cycle ≤ mt.numRows - 1)) = hints := by
    rw [List.filter_eq_self]
    intro a ha
    have := hlt a ha
    rw [decide_eq_true_eq]
    omega
  rw [hfull, prod_factorOf_split c0 c1 c2 hints,
    balanced_prod_eq hints (fun p => combine c0 c1 c2 p.1 p.2) hbal]
  exact mul_inv_cancel₀ (remove_prod_ne_zero c0 c1 c2 hd)

/-- Witness for C3 on the concrete balanced scenario over the rationals. -/
theorem balanced_log_terminal_identity_witness :
    balancedLog ([⟨1, HintKind.insert, 7, 3⟩, ⟨3, HintKind.remove, 7, 3⟩] :
        List (HintEntry ℚ)) ∧
    0 < Matrix.numRows ([[], [], [], []] : Matrix ℚ) ∧
    ([1, combine (1 : ℚ) 1 2 7 3, combine (1 : ℚ) 1 2 7 3, 1] : List ℚ).getD
        (Matrix.numRows ([[], [], [], []] : Matrix ℚ) - 1) 0 = 1 :=
  ⟨rfl, by decide,
    balanced_log_terminal_identity [[], [], [], []]
      [⟨1, HintKind.insert, 7, 3⟩, ⟨3, HintKind.remove, 7, 3⟩] 1 1 2
      [1, combine (1 : ℚ) 1 2 7 3, combine (1 : ℚ) 1 2 7 3, 1]
      (concrete_scenario_eval 1 1 2 (by unfold combine; norm_num))
      rfl (by decide)⟩

namespace Cli

/-!
Model of `miden/src/cli/data.rs`.  Strings handed to the byte-level helpers
are modelled as lists of characters (the inputs at issue are ASCII, where
byte indexing and character indexing agree); Rust panics are modelled as
`none` of an outer `Option`; error messages built with `format!` are
abstracted into structured error values.
-/

/-- Model of Rust `str::parse::<u64>`: an optional leading plus sign, then
one or more ASCII digits, with the value below `2^64`; anything else fails. -/
def parseU64 (s : String) : Option Nat :=
  let cs := match s.data with
    | '+' :: rest => rest
    | cs => cs
  if cs.isEmpty then none
  else if cs.all (fun c => c.isDigit) then
    let n := cs.foldl (fun acc c => acc * 10 + (c.toNat - 48)) 0
    if n < 2 ^ 64 then some n else none
  else none

/-- Model of `iter().map(|v| v.parse().unwrap()).collect::<Vec<_>>()`: the
first failing element panics (outer `none`); otherwise all parsed values are
collected in order. -/
def mapOrPanic {α β : Type} (f : α → Option β) : List α → Option (List β)
  | [] => some []
  | a :: l =>
    match f a with
    | none => none
    | some b =>
      match mapOrPanic f l with
      | none => none
      | some bs => some (b :: bs)

/-- Translated from `OutputFile` in `miden/src/cli/data.rs`. -/
structure OutputFile where
  stack : List String
  overflow_addrs : List String

/-- The `StackOutputs` type of the miden crate, reduced to the data the CLI
hands it. -/
structure StackOutputs where
  stack : List Nat
  overflow_addrs : List Nat

/-- External collaborator `StackOutputs::new` of the miden crate: a total
constructor returning a `Result` (it never panics); its internal validation
is not part of this repository and does not affect the claims below, so it
is modelled as always succeeding. -/
def StackOutputs.new (stack overflow_addrs : List Nat) : Except String StackOutputs :=
  Except.ok ⟨stack, overflow_addrs⟩

/-- Translated from `OutputFile::stack_outputs` in `miden/src/cli/data.rs`:
parses each stack string and each overflow-address string with
`parse::<u64>().unwrap()` (a panic on failure), then builds `StackOutputs`. -/
def OutputFile.stack_outputs (f : OutputFile) : Option (Except String StackOutputs) :=
  match mapOrPanic parseU64 f.stack with
  | none => none
  | some stack =>
    match mapOrPanic parseU64 f.overflow_addrs with
    | none => none
    | some overflow =>
      some ((StackOutputs.new stack overflow).mapError
        (fun e => "Construct stack outputs failed " ++ e))

/-- Collecting with unwrap panics exactly when some element fails. -/
lemma mapOrPanic_eq_none_iff {α β : Type} (f : α → Option β) :
    ∀ l : List α, mapOrPanic f l = none ↔ ∃ a ∈ l, f a = none := by
  intro l
  induction l with
  | nil => simp [mapOrPanic]
  | cons a t ih =>
    unfold mapOrPanic
    cases hfa : f a with
    | none => simp [hfa]
    | some b =>
      cases hmt : mapOrPanic f t with
      | none =>
        obtain ⟨x, hx, hfx⟩ := ih.mp hmt
        simp only [true_iff]
        exact ⟨x, List.mem_cons_of_mem a hx, hfx⟩
      | some bs =>
        simp only [List.mem_cons]
        constructor
        · intro hcontra
          exact Option.noConfusion hcontra
        · rintro ⟨x, hx | hx, hfx⟩
          · rw [hx] at hfx
            rw [hfx] at hfa
            exact Option.noConfusion hfa
          · rw [ih.mpr ⟨x, hx, hfx⟩] at hmt
            exact Option.noConfusion hmt

/-- If parsing the stack panics, the whole call panics. -/
lemma stack_outputs_none_left {f : OutputFile}
    (h : mapOrPanic parseU64 f.stack = none) : f.stack_outputs = none := by
  unfold OutputFile.stack_outputs
  rw [h]

/-- If the stack parses but the overflow addresses panic, the call panics. -/
lemma stack_outputs_none_right {f : OutputFile} {s : List Nat}
    (h1 : mapOrPanic parseU64 f.stack = some s)
    (h2 : mapOrPanic parseU64 f.overflow_addrs = none) : f.stack_outputs = none := by
  unfold OutputFile.stack_outputs
  rw [h1, h2]

/-- If both vectors parse, the call returns a `Result` without panicking. -/
lemma stack_outputs_some {f : OutputFile} {s o : List Nat}
    (h1 : mapOrPanic parseU64 f.stack = some s)
    (h2 : mapOrPanic parseU64 f.overflow_addrs = some o) :
    f.stack_outputs =
      some ((StackOutputs.new s o).mapError
        (fun e => "Construct stack outputs failed " ++ e)) := by
  unfold OutputFile.stack_outputs
  rw [h1, h2]

/-- C8: `OutputFile::stack_outputs` panics (the unwrap) exactly when some
string of `stack` or `overflow_addrs` fails to parse as a `u64`; in
particular it never reports such a failure through its declared `Result`,
and it returns without panicking exactly when every entry parses. -/
theorem stack_outputs_panic_iff (f : OutputFile) :
    f.stack_outputs = none ↔ ∃ v ∈ f.stack ++ f.overflow_addrs, parseU64 v = none := by
  constructor
  · intro h
    cases h1 : mapOrPanic parseU64 f.stack with
    | none =>
      obtain ⟨a, ha, hfa⟩ := (mapOrPanic_eq_none_iff parseU64 f.stack).mp h1
      exact ⟨a, List.mem_append_left _ ha, hfa⟩
    | some s =>
      cases h2 : mapOrPanic parseU64 f.overflow_addrs with
      | none =>
        obtain ⟨a, ha, hfa⟩ := (mapOrPanic_eq_none_iff parseU64 f.overflow_addrs).mp h2
        exact ⟨a, List.mem_append_right _ ha, hfa⟩
      | some o =>
        rw [stack_outputs_some h1 h2] at h
        exact Option.noConfusion h
  · rintro ⟨a, ha, hfa⟩
    rcases List.mem_append.mp ha with has | hao
    · exact stack_outputs_none_left
        ((mapOrPanic_eq_none_iff parseU64 f.stack).mpr ⟨a, has, hfa⟩)
    · cases h1 : mapOrPanic parseU64 f.stack with
      | none => exact stack_outputs_none_left h1
      | some s =>
        exact stack_outputs_none_right h1
          ((mapOrPanic_eq_none_iff parseU64 f.overflow_addrs).mpr ⟨a, hao, hfa⟩)

/-- Model of the hex crate digit table: value of one ASCII hex digit. -/
def hexDigitVal (c : Char) : Option Nat :=
  if '0' ≤ c ∧ c ≤ '9' then some (c.toNat - 48)
  else if 'a' ≤ c ∧ c ≤ 'f' then some (c.toNat - 87)
  else if 'A' ≤ c ∧ c ≤ 'F' then some (c.toNat - 55)
  else none

/-- Decode a character sequence as consecutive hex-digit pairs into bytes;
fails on an odd length or a non-hex character. -/
def hexDecodePairs : List Char → Option (List Nat)
  | [] => some []
  | c1 :: c2 :: rest =>
    match hexDigitVal c1, hexDigitVal c2, hexDecodePairs rest with
    | some hi, some lo, some bs => some ((hi * 16 + lo) :: bs)
    | _, _, _ => none
  | [_] => none

/-- Model of `hex::decode_to_slice(src, out)` for an output buffer of
`outLen` bytes: the source must hold exactly `2 * outLen` characters, all
hex digits. -/
def decode_to_slice (src : List Char) (outLen : Nat) : Option (List Nat) :=
  if src.length = 2 * outLen then hexDecodePairs src else none

/-- The Goldilocks modulus of the `Felt` base field of the miden crate. -/
def feltModulus : Nat := 2 ^ 64 - 2 ^ 32 + 1

/-- Structured outcome of `InputFile::parse_word`; the formatted error
strings of the source are abstracted to their variant. -/
inductive WordError where
  | decodeFailed : WordError
  | feltOutOfRange : WordError
deriving DecidableEq, Repr

/-- Little-endian value of a byte sequence. -/
def leVal (bytes : List Nat) : Nat := bytes.foldr (fun b acc => b + 256 * acc) 0

/-- Model of `Felt::try_from(&[u8])` of the miden (winterfell) crate: reads
the eight bytes little-endian and fails when the value reaches the field
modulus. -/
def feltTryFrom (bytes : List Nat) : Except WordError Nat :=
  if leVal bytes < feltModulus then Except.ok (leVal bytes)
  else Except.error WordError.feltOutOfRange

/-- The `word_data.chunks(8)` loop of `parse_word`: the 32 decoded bytes are
converted chunkwise to four field elements, stopping at the first failure. -/
def wordFromBytes (bs : List Nat) : Except WordError (List Nat) :=
  match feltTryFrom (bs.take 8) with
  | Except.error e => Except.error e
  | Except.ok f0 =>
    match feltTryFrom ((bs.drop 8).take 8) with
    | Except.error e => Except.error e
    | Except.ok f1 =>
      match feltTryFrom ((bs.drop 16).take 8) with
      | Except.error e => Except.error e
      | Except.ok f2 =>
        match feltTryFrom ((bs.drop 24).take 8) with
        | Except.error e => Except.error e
        | Except.ok f3 => Except.ok [f0, f1, f2, f3]

/-- Translated from `InputFile::parse_word` in `miden/src/cli/data.rs`:
`&word_hex[2..]` (a panic — outer `none` — when the input is shorter than
two bytes), then `hex::decode_to_slice` into a 32-byte buffer, then four
`Felt::try_from` conversions. -/
def InputFile.parse_word (word_hex : List Char) : Option (Except WordError (List Nat)) :=
  if word_hex.length < 2 then none
  else
    match decode_to_slice (word_hex.drop 2) 32 with
    | none => some (Except.error WordError.decodeFailed)
    | some word_data => some (wordFromBytes word_data)

/-- C9 counterexample: the input `"0x" ++ 64 × 'f'` has a remainder that
decodes as 64 hex digits, yet `parse_word` fails on it (each chunk value
`2^64 - 1` reaches the field modulus), while `"0x" ++ 64 × '0'` succeeds —
so success is not determined by the remainder decoding as 64 hex digits. -/
theorem parse_word_hex_digits_insufficient :
    (decode_to_slice (List.replicate 64 'f') 32).isSome = true ∧
    InputFile.parse_word ('0' :: 'x' :: List.replicate 64 'f') =
      some (Except.error WordError.feltOutOfRange) ∧
    InputFile.parse_word ('0' :: 'x' :: List.replicate 64 '0') =
      some (Except.ok [0, 0, 0, 0]) := by
  refine ⟨?_, ?_, ?_⟩ <;> decide

/-- C9 (amended): `parse_word` never inspects the first two characters — the
outcome is a function of the remainder alone; it panics exactly on inputs
shorter than two characters; it fails whenever the remainder does not decode
as 64 hex digits; and it succeeds only when the remainder decodes and every
8-byte chunk converts to a field element. -/
theorem parse_word_behavior :
    (∀ p q rest : List Char, p.length = 2 → q.length = 2 →
        InputFile.parse_word (p ++ rest) = InputFile.parse_word (q ++ rest)) ∧
    (∀ s : List Char, InputFile.parse_word s = none ↔ s.length < 2) ∧
    (∀ s : List Char, 2 ≤ s.length → decode_to_slice (s.drop 2) 32 = none →
        InputFile.parse_word s = some (Except.error WordError.decodeFailed)) ∧
    (∀ s : List Char, ∀ w : List Nat,
        InputFile.parse_word s = some (Except.ok w) →
        ∃ bs, decode_to_slice (s.drop 2) 32 = some bs ∧
          wordFromBytes bs = Except.ok w) := by
  refine ⟨?_, ?_, ?_, ?_⟩
  · intro p q rest hp hq
    unfold InputFile.parse_word
    rw [if_neg (by rw [List.length_append, hp]; omega),
      if_neg (by rw [List.length_append, hq]; omega)]
    have hd1 : (p ++ rest).drop 2 = rest := by rw [← hp, List.drop_left]
    have hd2 : (q ++ rest).drop 2 = rest := by rw [← hq, List.drop_left]
    rw [hd1, hd2]
  · intro s
    unfold InputFile.parse_word
    by_cases h : s.length < 2
    · simp [h]
    · rw [if_neg h]
      constructor
      · intro hcontra
        cases hdec : decode_to_slice (s.drop 2) 32 with
        | none => rw [hdec] at hcontra; exact Option.noConfusion hcontra
        | some bs => rw [hdec] at hcontra; exact Option.noConfusion hcontra
      · intro hcontra
        exact absurd hcontra h
  · intro s hlen hdec
    unfold InputFile.parse_word
    rw [if_neg (by omega), hdec]
  · intro s w h
    unfold InputFile.parse_word at h
    by_cases hlen : s.length < 2
    · rw [if_pos hlen] at h
      exact Option.noConfusion h
    · rw [if_neg hlen] at h
      cases hdec : decode_to_slice (s.drop 2) 32 with
      | none =>
        rw [hdec] at h
        simp at h
      | some bs =>
        rw [hdec] at h
        exact ⟨bs, rfl, Option.some.inj h⟩

/-- Witness for C9 (amended): a one-character input panics. -/
theorem parse_word_behavior_witness :
    InputFile.parse_word (['a'] : List Char) = none :=
  (parse_word_behavior.2.1 ['a']).mpr (by decide)

/-- Translated from the `MerkleData` enum in `miden/src/cli/data.rs`; the
third variant models `partial_merkle_tree`. -/
inductive MerkleData where
  | merkleTree : List String → MerkleData
  | sparseMerkleTree : List (Nat × String) → MerkleData
  | pmTree : List ((Nat × Nat) × String) → MerkleData

/-- Translated from the `InputFile` struct in `miden/src/cli/data.rs`; the
advice map, a `HashMap` in the source, is modelled as an association
list. -/
structure InputFile where
  operand_stack : List String
  advice_stack : Option (List String)
  advice_map : Option (List (String × List Nat))
  merkle_store : Option (List MerkleData)

/-- Structured outcome of `InputFile::read`; the formatted error strings of
the source are abstracted to their variant. -/
inductive ReadError where
  | openFailed : ReadError
  | deserializeFailed : ReadError
deriving DecidableEq, Repr

/-- The ambient world of `InputFile::read`, passed explicitly: path
existence checks, `Path::with_extension`, `fs::read_to_string` and
`serde_json::from_str` for `InputFile`, over an abstract path type `P`. -/
structure CliEnv (P : Type) where
  pathExists : P → Bool
  withExtension : P → String → P
  readToString : P → Except ReadError String
  parseInputFile : String → Except ReadError InputFile

/-- Translated from `InputFile::read` in `miden/src/cli/data.rs`.  The
second component of the result records the paths passed to
`fs::read_to_string`, i.e. the filesystem reads performed. -/
def InputFile.read {P : Type} (env : CliEnv P) (inputs_path : Option P)
    (program_path : P) : Except ReadError InputFile × List P :=
  if !inputs_path.isSome && !env.pathExists (env.withExtension program_path ("inputs")) then
    (Except.ok ⟨[], some [], some [], none⟩, [])
  else
    let path := match inputs_path with
      | some p => p
      | none => env.withExtension program_path ("inputs")
    match env.readToString path with
    | Except.error _ => (Except.error ReadError.openFailed, [path])
    | Except.ok contents =>
      match env.parseInputFile contents with
      | Except.error _ => (Except.error ReadError.deserializeFailed, [path])
      | Except.ok inputs => (Except.ok inputs, [path])

/-- C10: with no explicit inputs path and no `.inputs` file next to the
program, `InputFile::read` returns `Ok` with an empty operand stack, an
empty advice stack, an empty advice map and no merkle store, and performs
no filesystem read. -/
theorem input_file_read_defaults {P : Type} (env : CliEnv P) (program_path : P)
    (hno : env.pathExists (env.withExtension program_path ("inputs")) = false) :
    InputFile.read env none program_path =
      (Except.ok ⟨[], some [], some [], none⟩, ([] : List P)) := by
  unfold InputFile.read
  rw [if_pos]
  rw [hno]
  rfl

/-- An environment whose filesystem is empty, over the unit path type. -/
def trivialEnv : CliEnv Unit where
  pathExists := fun _ => false
  withExtension := fun p _ => p
  readToString := fun _ => Except.error ReadError.openFailed
  parseInputFile := fun _ => Except.error ReadError.deserializeFailed

/-- Witness for C10 on the empty-filesystem environment. -/
theorem input_file_read_defaults_witness :
    trivialEnv.pathExists (trivialEnv.withExtension () ("inputs")) = false ∧
    InputFile.read trivialEnv none () =
      (Except.ok ⟨[], some [], some [], none⟩, ([] : List Unit)) :=
  ⟨rfl, input_file_read_defaults trivialEnv () rfl⟩

end Cli

end MidenVM
